import Mathlib

/-!
# Verification of the Squarezoid synthesiser core

Shallow embedding of `src/src/lib.rs`: a polyphonic square-wave VST
synthesiser.  Machine integers (`u8`, `u16`) are modelled as `ℕ` with
explicit wrap-around where the source casts; `f64` arithmetic is modelled
over `ℝ`.  The note registry (an `AHashMap<u8, Note>` in the source) is
modelled as an association list `List (ℕ × Note)`; hashmap iteration order
is unspecified in the source, and order-independence of the mix is proved
explicitly below.
-/

set_option maxHeartbeats 1000000

/-- `b as i8` for a byte `b` (two's-complement reinterpretation of `u8`). -/
def i8ofByte (b : ℕ) : ℤ :=
  if b % 256 < 128 then ((b % 256 : ℕ) : ℤ) else ((b % 256 : ℕ) : ℤ) - 256

/-- Wrapping `i8` arithmetic result (release-mode overflow semantics). -/
def i8wrap (x : ℤ) : ℤ := (x + 128) % 256 - 128

/-- `keyframe::ease_with_scaled_time(Linear, -2.0, 2.0, bend, 16383.0)`:
the library clamps `time / max_time` into `[0, 1]` and then linearly
interpolates from `-2.0` to `2.0`. -/
noncomputable def bendAmount (bend : ℕ) : ℝ :=
  let t : ℝ := (bend : ℝ) / 16383
  let tc : ℝ := if t < 0 then 0 else if 1 < t then 1 else t
  (2 - (-2)) * tc + (-2)

/-- `midi_pitch_to_freq(pitch: u8, bend: u16) -> f64` from the source:
`((pitch as i8 - 69) + bend_amt) / 12` exponentiated base 2, times 440. -/
noncomputable def midi_pitch_to_freq (pitch : ℕ) (bend : ℕ) : ℝ :=
  let p : ℝ := (i8wrap (i8ofByte pitch - 69) : ℤ)
  (2 : ℝ) ^ ((p + bendAmount bend) / 12) * 440

/-- One live note: `velocity: u8`, `duration: f64` (seconds held). -/
structure Note where
  velocity : ℕ
  duration : ℝ

/-- The three data bytes of a MIDI event (`evt.data : [u8; 3]`). -/
structure MidiData where
  status : ℕ
  d1 : ℕ
  d2 : ℕ
  deriving DecidableEq

/-- A host event: the source only consumes `Event::Midi`; everything else
falls through the `if let` and is ignored. -/
inductive VstEvent where
  | midi (d : MidiData)
  | other
  deriving DecidableEq

/-- Engine state: note registry, global pitch bend (`u16`), sample rate. -/
structure Squarezoid where
  notes : List (ℕ × Note)
  bend : ℕ
  sample_rate : ℝ

/-- `self.notes.remove(&pitch)`: drop the entry for `pitch`, if any. -/
def removeNote (m : List (ℕ × Note)) (p : ℕ) : List (ℕ × Note) :=
  m.filter (fun e => ¬ e.1 = p)

/-- `self.notes.insert(pitch, note)`: replace any entry for `pitch`. -/
def insertNote (m : List (ℕ × Note)) (p : ℕ) (n : Note) : List (ℕ × Note) :=
  m.filter (fun e => ¬ e.1 = p) ++ [(p, n)]

/-- `self.notes.get_mut(&pitch)` followed by `note.velocity = v`:
update in place when present, no-op when absent. -/
def aftertouchNote (m : List (ℕ × Note)) (p : ℕ) (v : ℕ) : List (ℕ × Note) :=
  m.map (fun e => if e.1 = p then (e.1, Note.mk v e.2.duration) else e)

/-- Registry lookup by pitch (first entry with the given key). -/
def lookupNote (m : List (ℕ × Note)) (p : ℕ) : Option Note :=
  (m.find? (fun e => e.1 == p)).map (fun e => e.2)

namespace Squarezoid

/-- One iteration of the event loop in `process_events`: dispatch on the
status byte ranges of the source's `match data[0]`. -/
def processEvent (s : Squarezoid) (e : VstEvent) : Squarezoid :=
  match e with
  | .other => s
  | .midi d =>
    if 128 ≤ d.status ∧ d.status ≤ 143 then
      Squarezoid.mk (removeNote s.notes d.d1) s.bend s.sample_rate
    else if 144 ≤ d.status ∧ d.status ≤ 159 then
      Squarezoid.mk (insertNote s.notes d.d1 (Note.mk d.d2 0)) s.bend s.sample_rate
    else if 160 ≤ d.status ∧ d.status ≤ 175 then
      Squarezoid.mk (aftertouchNote s.notes d.d1 d.d2) s.bend s.sample_rate
    else if 224 ≤ d.status ∧ d.status ≤ 239 then
      Squarezoid.mk s.notes (d.d1 ||| (d.d2 <<< 7)) s.sample_rate
    else s

/-- `fn process_events(&mut self, events: &Events)`. -/
def process_events (s : Squarezoid) (evts : List VstEvent) : Squarezoid :=
  evts.foldl processEvent s

/-- `impl Default for Squarezoid`: empty registry, 44100 Hz, bend 8192. -/
def default : Squarezoid := Squarezoid.mk [] 8192 44100

end Squarezoid

/-- Status-byte test for the pitch-wheel branch (`224..=239`). -/
def isBendEvent (d : MidiData) : Prop := 224 ≤ d.status ∧ d.status ≤ 239

instance (d : MidiData) : Decidable (isBendEvent d) := by
  unfold isBendEvent; infer_instance

/-- Project the MIDI payload out of a host event, if any. -/
def midiOf : VstEvent → Option MidiData
  | .midi d => some d
  | .other => none

/- ## Frequency mapper: concrete evaluations -/

theorem bendAmount_8192 : bendAmount 8192 = 2 / 16383 := by
  show (2 - (-2 : ℝ)) *
      (if ((8192 : ℕ) : ℝ) / 16383 < 0 then 0
        else if 1 < ((8192 : ℕ) : ℝ) / 16383 then 1 else ((8192 : ℕ) : ℝ) / 16383) +
      (-2) = 2 / 16383
  rw [if_neg (by norm_num), if_neg (by norm_num)]
  norm_num

theorem freq_69_8192 : midi_pitch_to_freq 69 8192 = (2 : ℝ) ^ ((1 : ℝ) / 98298) * 440 := by
  unfold midi_pitch_to_freq
  rw [bendAmount_8192]
  norm_num [i8ofByte, i8wrap]

/-- The detune factor `2 ^ (1/98298)` is strictly above `1`. -/
theorem detune_gt_one : 1 < (2 : ℝ) ^ ((1 : ℝ) / 98298) := by
  rw [Real.one_lt_rpow_iff_of_pos (by norm_num)]
  exact Or.inl (by norm_num)

/-- The detune factor `2 ^ (1/98298)` is strictly below `1.01`. -/
theorem detune_lt : (2 : ℝ) ^ ((1 : ℝ) / 98298) < 1 + 1 / 100 := by
  by_contra hc
  push_neg at hc
  have hpow : ((2 : ℝ) ^ ((1 : ℝ) / 98298)) ^ (98298 : ℕ) = 2 := by
    rw [← Real.rpow_natCast ((2 : ℝ) ^ ((1 : ℝ) / 98298)) 98298,
      ← Real.rpow_mul (by norm_num : (0 : ℝ) ≤ 2)]
    norm_num
  have hb : (1 + (1 : ℝ) / 100) ^ (98298 : ℕ) ≤ 2 := by
    calc (1 + (1 : ℝ) / 100) ^ (98298 : ℕ)
        ≤ ((2 : ℝ) ^ ((1 : ℝ) / 98298)) ^ (98298 : ℕ) :=
          pow_le_pow_left₀ (by norm_num) hc _
      _ = 2 := hpow
  have hbern : 1 + (98298 : ℕ) * ((1 : ℝ) / 100) ≤ (1 + (1 : ℝ) / 100) ^ (98298 : ℕ) :=
    one_add_mul_le_pow (by norm_num) 98298
  have : (983.98 : ℝ) ≤ 2 := by
    calc (983.98 : ℝ) = 1 + (98298 : ℕ) * ((1 : ℝ) / 100) := by norm_num
      _ ≤ (1 + (1 : ℝ) / 100) ^ (98298 : ℕ) := hbern
      _ ≤ 2 := hb
  norm_num at this

/-- C1 counterexample: the mapped frequency at pitch 69, bend 8192 is not
exactly 440 Hz. -/
theorem frequency_69_8192_ne_440 : midi_pitch_to_freq 69 8192 ≠ 440 := by
  rw [freq_69_8192]
  intro h
  have h1 : (2 : ℝ) ^ ((1 : ℝ) / 98298) = 1 := by
    have h440 : (440 : ℝ) ≠ 0 := by norm_num
    field_simp at h
    linarith [h]
  linarith [detune_gt_one, h1]

/-- C1 (amended): bend 8192 maps to a bend amount of `2/16383` semitones
(not `0.0`), so the frequency at pitch 69, bend 8192 is exactly
`440 · 2^(1/98298)` Hz, which is strictly greater than 440 Hz (by less
than one percent). -/
theorem frequency_69_8192_exact :
    bendAmount 8192 = 2 / 16383 ∧
    midi_pitch_to_freq 69 8192 = (2 : ℝ) ^ ((1 : ℝ) / 98298) * 440 ∧
    440 < midi_pitch_to_freq 69 8192 ∧
    midi_pitch_to_freq 69 8192 < 440 * (1 + 1 / 100) := by
  refine ⟨bendAmount_8192, freq_69_8192, ?_, ?_⟩
  · rw [freq_69_8192]
    nlinarith [detune_gt_one]
  · rw [freq_69_8192]
    nlinarith [detune_lt]

/- ## Sample synthesizer -/

/-- Rust `f64::fract()`: `x - x.trunc()`, truncation toward zero. -/
noncomputable def rustFract (x : ℝ) : ℝ :=
  x - (if 0 ≤ x then (⌊x⌋ : ℝ) else (⌈x⌉ : ℝ))

/-- `let duty = note.velocity as f64 / 127.0`. -/
noncomputable def noteDuty (n : Note) : ℝ := (n.velocity : ℝ) / 127

/-- `let sample_time = note.duration * freq`. -/
noncomputable def sampleTime (bend p : ℕ) (n : Note) : ℝ :=
  n.duration * midi_pitch_to_freq p bend

/-- `let duty_progress = sample_time.fract()`. -/
noncomputable def dutyProgress (bend p : ℕ) (n : Note) : ℝ :=
  rustFract (sampleTime bend p n)

/-- Per-note contribution: `if duty_progress < duty { 0.0 } else { 0.01 }`. -/
noncomputable def noteContribution (bend p : ℕ) (n : Note) : ℝ :=
  if dutyProgress bend p n < noteDuty n then 0 else 0.01

/-- The mixed value of one sample: the per-note contributions summed. -/
noncomputable def mixSample (bend : ℕ) (notes : List (ℕ × Note)) : ℝ :=
  (notes.map (fun e => noteContribution bend e.1 e.2)).sum

/-- `note.duration += per_sample`, applied to every live note in the
single `iter_mut` pass that also computes the contributions. -/
def stepNotes (per : ℝ) (notes : List (ℕ × Note)) : List (ℕ × Note) :=
  notes.map (fun e => (e.1, Note.mk e.2.velocity (e.2.duration + per)))

/-- The `for sample_idx in 0..sample_count` loop: the list of mixed sample
values together with the advanced registry. -/
noncomputable def renderLoop (bend : ℕ) (per : ℝ) :
    ℕ → List (ℕ × Note) → List ℝ × List (ℕ × Note)
  | 0, notes => ([], notes)
  | k + 1, notes =>
    let rest := renderLoop bend per k (stepNotes per notes)
    (mixSample bend notes :: rest.1, rest.2)

namespace Squarezoid

/-- `fn process(&mut self, buffer)`: render `sampleCount` samples with
`per_sample = self.sample_rate.recip()`.  The source reads `self.bend`
afresh each iteration but never writes it inside the loop, so it is
resolved once here. -/
noncomputable def process (s : Squarezoid) (sampleCount : ℕ) : List ℝ × Squarezoid :=
  ((renderLoop s.bend s.sample_rate⁻¹ sampleCount s.notes).1,
    Squarezoid.mk (renderLoop s.bend s.sample_rate⁻¹ sampleCount s.notes).2
      s.bend s.sample_rate)

/-- Engine state after a render call. -/
noncomputable def renderState (s : Squarezoid) (sampleCount : ℕ) : Squarezoid :=
  (s.process sampleCount).2

end Squarezoid

/-- Every output channel receives the identical sample list
(`buf[sample_idx] = sample as f32` for every channel index). -/
noncomputable def channelBuffers (channels : ℕ) (s : Squarezoid) (count : ℕ) :
    List (List ℝ) :=
  List.replicate channels (s.process count).1

/-- Durations of the registered notes, in registry order. -/
def noteDurations (s : Squarezoid) : List ℝ := s.notes.map (fun e => e.2.duration)

/-- Rendering `k` samples adds `k · per_sample` to every note's duration
and touches nothing else in the registry. -/
theorem renderLoop_notes (bend : ℕ) (per : ℝ) (k : ℕ) :
    ∀ notes : List (ℕ × Note),
      (renderLoop bend per k notes).2 =
        notes.map (fun e => (e.1, Note.mk e.2.velocity (e.2.duration + k * per))) := by
  induction k with
  | zero =>
    intro notes
    simp only [renderLoop, Nat.cast_zero, zero_mul, add_zero]
    exact (List.map_id notes).symm
  | succ k ih =>
    intro notes
    simp only [renderLoop]
    rw [ih (stepNotes per notes)]
    simp only [stepNotes, List.map_map]
    congr 1
    funext e
    simp only [Function.comp]
    congr 1
    congr 1
    push_cast
    ring

/-- Durations after rendering `k` samples, as a map over the registry. -/
theorem renderState_durations (s : Squarezoid) (k : ℕ) :
    noteDurations (s.renderState k) =
      s.notes.map (fun e => e.2.duration + k * s.sample_rate⁻¹) := by
  unfold noteDurations Squarezoid.renderState Squarezoid.process
  rw [renderLoop_notes, List.map_map]
  rfl

/-- C5: across a render call of `S` samples at rate `R > 0`, every held
note's `elapsed_duration` grows by exactly `S / R`, and it is strictly
larger after each individual rendered sample than before it. -/
theorem duration_monotonic (s : Squarezoid) (hR : 0 < s.sample_rate) (S : ℕ) :
    noteDurations (s.renderState S) =
      (noteDurations s).map (fun d => d + S / s.sample_rate) ∧
    ∀ k i : ℕ, i < s.notes.length →
      (noteDurations (s.renderState k)).getD i 0 <
        (noteDurations (s.renderState (k + 1))).getD i 0 := by
  constructor
  · rw [renderState_durations]
    unfold noteDurations
    rw [List.map_map]
    congr 1
  · intro k i hi
    rw [renderState_durations, renderState_durations,
      List.getD_eq_getElem?_getD, List.getD_eq_getElem?_getD,
      List.getElem?_map, List.getElem?_map,
      List.getElem?_eq_getElem hi]
    simp only [Option.map_some', Option.getD_some]
    have hper : 0 < s.sample_rate⁻¹ := inv_pos.mpr hR
    have : (k : ℝ) * s.sample_rate⁻¹ < ((k : ℕ) + 1 : ℕ) * s.sample_rate⁻¹ := by
      push_cast
      nlinarith
    linarith

/-- A held note's duration after one render call, for the witness below. -/
theorem duration_monotonic_witness :
    noteDurations ((Squarezoid.mk [(69, Note.mk 127 0)] 8192 44100).renderState 2) =
      (noteDurations (Squarezoid.mk [(69, Note.mk 127 0)] 8192 44100)).map
        (fun d => d + (2 : ℕ) / (44100 : ℝ)) :=
  (duration_monotonic (Squarezoid.mk [(69, Note.mk 127 0)] 8192 44100) (by norm_num) 2).1

/-- C10: rendering changes only note durations (and produces the output);
the set of registered pitches, each note's velocity, the global bend and
the sample rate are all unchanged by `process`. -/
theorem process_frame_effect (s : Squarezoid) (S : ℕ) :
    (s.renderState S).bend = s.bend ∧
    (s.renderState S).sample_rate = s.sample_rate ∧
    (s.renderState S).notes.map (fun e => (e.1, e.2.velocity)) =
      s.notes.map (fun e => (e.1, e.2.velocity)) := by
  refine ⟨rfl, rfl, ?_⟩
  unfold Squarezoid.renderState Squarezoid.process
  rw [renderLoop_notes, List.map_map]
  rfl

/- ## End-to-end scenario (note-on then one rendered sample) -/

theorem rustFract_zero : rustFract 0 = 0 := by
  unfold rustFract
  norm_num

theorem sampleTime_dur_zero (bend p v : ℕ) : sampleTime bend p (Note.mk v 0) = 0 := by
  unfold sampleTime
  simp

theorem dutyProgress_dur_zero (bend p v : ℕ) : dutyProgress bend p (Note.mk v 0) = 0 := by
  unfold dutyProgress
  rw [sampleTime_dur_zero, rustFract_zero]

/-- At duration 0 with velocity 127 the duty gate is below duty, so the
contribution is silence. -/
theorem contribution_note_on_start : noteContribution 8192 69 (Note.mk 127 0) = 0 := by
  unfold noteContribution
  rw [if_pos]
  rw [dutyProgress_dur_zero]
  unfold noteDuty
  norm_num

/-- The single sample of a one-sample render call is the mix of the
pre-call registry. -/
theorem process_one_sample (s : Squarezoid) :
    (s.process 1).1 = [mixSample s.bend s.notes] := by
  simp [Squarezoid.process, renderLoop]

/-- C2 counterexample: in the end-to-end scenario (note-on 69/127, one
sample at 44100 Hz, bend 8192) the phase position used for the rendered
sample is exactly 0 — the duration advances only after the contribution is
computed — so it is not approximately `440/44100 ≈ 0.00998`; it differs
from that value by more than `1/200`. -/
theorem end_to_end_phase_counterexample :
    (Squarezoid.process_events Squarezoid.default
        [VstEvent.midi (MidiData.mk 144 69 127)]).notes = [(69, Note.mk 127 0)] ∧
    sampleTime 8192 69 (Note.mk 127 0) = 0 ∧
    1 / 200 < |sampleTime 8192 69 (Note.mk 127 0) - 440 / 44100| := by
  refine ⟨rfl, sampleTime_dur_zero 8192 69 127, ?_⟩
  rw [sampleTime_dur_zero]
  rw [abs_of_nonpos (by norm_num)]
  norm_num

/-- C2 (amended): sample_rate 44100, note-on(69,127), one sample rendered
at bend 8192: the note's `elapsed_duration` becomes `1/44100`; the phase
position used for that sample is exactly 0 (duration advances after the
contribution is read), while the phase after the sample,
`elapsed_duration × frequency`, is within `1/10000` of `440/44100`;
duty = 1, the duty progress 0 is below duty, and the written sample is 0.0
on every channel. -/
theorem end_to_end_scenario :
    Squarezoid.process_events Squarezoid.default
        [VstEvent.midi (MidiData.mk 144 69 127)] =
      Squarezoid.mk [(69, Note.mk 127 0)] 8192 44100 ∧
    ((Squarezoid.mk [(69, Note.mk 127 0)] 8192 44100).renderState 1).notes =
      [(69, Note.mk 127 ((1 : ℝ) / 44100))] ∧
    sampleTime 8192 69 (Note.mk 127 0) = 0 ∧
    noteDuty (Note.mk 127 0) = 1 ∧
    dutyProgress 8192 69 (Note.mk 127 0) < noteDuty (Note.mk 127 0) ∧
    (∀ ch ∈ channelBuffers 2 (Squarezoid.mk [(69, Note.mk 127 0)] 8192 44100) 1,
      ch = [0]) ∧
    |sampleTime 8192 69 (Note.mk 127 ((1 : ℝ) / 44100)) - 440 / 44100| < 1 / 10000 := by
  refine ⟨rfl, ?_, sampleTime_dur_zero 8192 69 127, by unfold noteDuty; norm_num, ?_, ?_, ?_⟩
  · simp [Squarezoid.renderState, Squarezoid.process, renderLoop, stepNotes]
  · rw [dutyProgress_dur_zero]
    unfold noteDuty
    norm_num
  · intro ch hch
    unfold channelBuffers at hch
    rw [process_one_sample] at hch
    have hmix : mixSample (Squarezoid.mk [(69, Note.mk 127 0)] 8192 44100).bend
        (Squarezoid.mk [(69, Note.mk 127 0)] 8192 44100).notes = 0 := by
      simp [mixSample, contribution_note_on_start]
    rw [hmix] at hch
    exact List.eq_of_mem_replicate hch
  · unfold sampleTime
    rw [freq_69_8192]
    have h1 := detune_gt_one
    have h2 := detune_lt
    rw [abs_lt]
    simp only
    constructor <;> nlinarith

/- ## Duty-cycle gate and mix order independence -/

/-- C4: a note's contribution to the mix is exactly 0.01 when
`duty_progress ≥ duty` and exactly 0.0 otherwise, with `duty =
velocity/127` and `duty_progress` the fractional part of
`elapsed_duration × frequency`; a one-sample render emits exactly the sum
of these contributions; and raising the velocity only shrinks the set of
notes emitting the high value 0.01 (same phase, higher velocity never
turns silence into 0.01). -/
theorem duty_cycle_gate (bend p : ℕ) (n : Note) :
    noteContribution bend p n =
      (if noteDuty n ≤ dutyProgress bend p n then 0.01 else 0) ∧
    (∀ s : Squarezoid, (s.process 1).1 = [mixSample s.bend s.notes]) ∧
    (∀ n1 n2 : Note, n1.duration = n2.duration → n1.velocity ≤ n2.velocity →
      noteContribution bend p n2 = 0.01 → noteContribution bend p n1 = 0.01) := by
  refine ⟨?_, process_one_sample, ?_⟩
  · unfold noteContribution
    rcases lt_or_le (dutyProgress bend p n) (noteDuty n) with h | h
    · rw [if_pos h, if_neg (not_le.mpr h)]
    · rw [if_neg (not_lt.mpr h), if_pos h]
  · intro n1 n2 hd hv hc
    have hprog : dutyProgress bend p n1 = dutyProgress bend p n2 := by
      unfold dutyProgress sampleTime
      rw [hd]
    have hduty : noteDuty n1 ≤ noteDuty n2 := by
      unfold noteDuty
      gcongr
    unfold noteContribution at hc ⊢
    by_cases h2 : dutyProgress bend p n2 < noteDuty n2
    · rw [if_pos h2] at hc
      norm_num at hc
    · push_neg at h2
      rw [if_neg (not_lt.mpr (by rw [hprog]; linarith))]

/-- Witness for C4 at velocity 0, duration 0: the gate is open and the
contribution is the high value 0.01. -/
theorem duty_cycle_gate_witness : noteContribution 8192 69 (Note.mk 0 0) = 0.01 :=
  (duty_cycle_gate 8192 69 (Note.mk 0 0)).2.2 (Note.mk 0 0) (Note.mk 0 0) rfl
    (le_refl 0)
    (by unfold noteContribution
        rw [if_neg]
        rw [dutyProgress_dur_zero]
        unfold noteDuty
        norm_num)

/-- C9: the mixed value of a rendered sample is independent of the
iteration order over the registry — any permutation of the note entries
sums to the same real number — and a one-sample render emits exactly that
mix. -/
theorem mix_order_independent (s : Squarezoid) (l : List (ℕ × Note))
    (h : s.notes.Perm l) :
    mixSample s.bend s.notes = mixSample s.bend l ∧
    (s.process 1).1 = [mixSample s.bend s.notes] := by
  refine ⟨?_, process_one_sample s⟩
  unfold mixSample
  exact (h.map (fun e => noteContribution s.bend e.1 e.2)).sum_eq

/-- Witness for C9: a two-note registry and its swap mix identically. -/
theorem mix_order_independent_witness :
    mixSample 8192 [(69, Note.mk 10 0), (70, Note.mk 20 0)] =
      mixSample 8192 [(70, Note.mk 20 0), (69, Note.mk 10 0)] :=
  (mix_order_independent
    (Squarezoid.mk [(69, Note.mk 10 0), (70, Note.mk 20 0)] 8192 44100)
    [(70, Note.mk 20 0), (69, Note.mk 10 0)]
    (List.Perm.swap (70, Note.mk 20 0) (69, Note.mk 10 0) [])).1

/- ## Registry uniqueness under note-on -/

theorem countP_insertNote (m : List (ℕ × Note)) (p : ℕ) (n : Note) :
    (insertNote m p n).countP (fun e => e.1 == p) = 1 := by
  unfold insertNote
  rw [List.countP_append]
  have h0 : (m.filter (fun e => ¬ e.1 = p)).countP (fun e => e.1 == p) = 0 := by
    rw [List.countP_eq_zero]
    intro a ha
    rw [List.mem_filter] at ha
    simp only [decide_eq_true_eq, beq_iff_eq] at ha ⊢
    exact ha.2
  rw [h0]
  simp [List.countP_cons]

theorem lookupNote_insertNote (m : List (ℕ × Note)) (p : ℕ) (n : Note) :
    lookupNote (insertNote m p n) p = some n := by
  unfold lookupNote insertNote
  rw [List.find?_append]
  have h1 : (m.filter (fun e => ¬ e.1 = p)).find? (fun e => e.1 == p) = none := by
    rw [List.find?_eq_none]
    intro a ha
    rw [List.mem_filter] at ha
    simp only [decide_eq_true_eq, beq_iff_eq] at ha ⊢
    exact ha.2
  rw [h1]
  simp [List.find?]

/-- Running a block of note-on events for pitch `p` always ends in an
`insertNote` of the final event's velocity with duration 0. -/
theorem noteOn_run (p : ℕ) (vl : ℕ × ℕ) : ∀ (vs : List (ℕ × ℕ)) (s : Squarezoid),
    (∀ e ∈ vs, 144 ≤ e.1 ∧ e.1 ≤ 159) → 144 ≤ vl.1 → vl.1 ≤ 159 →
    ∃ m : List (ℕ × Note),
      (Squarezoid.process_events s
        ((vs ++ [vl]).map (fun e => VstEvent.midi (MidiData.mk e.1 p e.2)))).notes =
        insertNote m p (Note.mk vl.2 0) := by
  intro vs
  induction vs with
  | nil =>
    intro s _ h1 h2
    refine ⟨s.notes, ?_⟩
    show (Squarezoid.processEvent s (VstEvent.midi (MidiData.mk vl.1 p vl.2))).notes = _
    simp only [Squarezoid.processEvent]
    rw [if_neg (by omega), if_pos ⟨h1, h2⟩]
  | cons w ws ih =>
    intro s hst h1 h2
    exact ih (Squarezoid.processEvent s (VstEvent.midi (MidiData.mk w.1 p w.2)))
      (fun e he => hst e (List.mem_cons_of_mem w he)) h1 h2

/-- C3: after any nonempty sequence of note-on events on pitch `p`
(each status byte in the note-on range, velocities arbitrary), the
registry holds exactly one entry for `p`, with `elapsed_duration = 0` and
the velocity of the last note-on; and event batches compose, so the same
holds when the events arrive split over several batches.  In particular a
note-on for a sounding pitch replaces the note and restarts its phase. -/
theorem registry_uniqueness (s : Squarezoid) (p : ℕ) (vs : List (ℕ × ℕ))
    (hne : vs ≠ []) (hst : ∀ e ∈ vs, 144 ≤ e.1 ∧ e.1 ≤ 159) :
    ((Squarezoid.process_events s
        (vs.map (fun e => VstEvent.midi (MidiData.mk e.1 p e.2)))).notes.countP
        (fun e => e.1 == p) = 1) ∧
    lookupNote (Squarezoid.process_events s
        (vs.map (fun e => VstEvent.midi (MidiData.mk e.1 p e.2)))).notes p =
      some (Note.mk (vs.getLast hne).2 0) ∧
    ∀ l1 l2 : List VstEvent,
      Squarezoid.process_events s (l1 ++ l2) =
        Squarezoid.process_events (Squarezoid.process_events s l1) l2 := by
  obtain ⟨m, hm⟩ := noteOn_run p (vs.getLast hne) vs.dropLast s
    (fun e he => hst e (List.dropLast_subset vs he))
    (hst _ (List.getLast_mem hne)).1 (hst _ (List.getLast_mem hne)).2
  rw [List.dropLast_append_getLast hne] at hm
  refine ⟨?_, ?_, ?_⟩
  · rw [hm]
    exact countP_insertNote m p _
  · rw [hm]
    exact lookupNote_insertNote m p _
  · intro l1 l2
    unfold Squarezoid.process_events
    rw [List.foldl_append]

/-- Witness for C3: two note-ons on pitch 69 leave one entry with the
second velocity. -/
theorem registry_uniqueness_witness :
    ((Squarezoid.process_events Squarezoid.default
        ([(144, 10), (150, 20)].map
          (fun e => VstEvent.midi (MidiData.mk e.1 69 e.2)))).notes.countP
        (fun e => e.1 == 69) = 1) ∧
    lookupNote (Squarezoid.process_events Squarezoid.default
        ([(144, 10), (150, 20)].map
          (fun e => VstEvent.midi (MidiData.mk e.1 69 e.2)))).notes 69 =
      some (Note.mk 20 0) :=
  ⟨(registry_uniqueness Squarezoid.default 69 [(144, 10), (150, 20)]
      (by decide) (by decide)).1,
   (registry_uniqueness Squarezoid.default 69 [(144, 10), (150, 20)]
      (by decide) (by decide)).2.1⟩

/- ## Pitch bend -/

/-- An event outside the pitch-wheel status range leaves the bend alone. -/
theorem processEvent_bend_of_not_bend (s : Squarezoid) (d : MidiData)
    (hd : ¬ isBendEvent d) :
    (Squarezoid.processEvent s (VstEvent.midi d)).bend = s.bend := by
  simp only [Squarezoid.processEvent]
  by_cases h1 : 128 ≤ d.status ∧ d.status ≤ 143
  · rw [if_pos h1]
  · rw [if_neg h1]
    by_cases h2 : 144 ≤ d.status ∧ d.status ≤ 159
    · rw [if_pos h2]
    · rw [if_neg h2]
      by_cases h3 : 160 ≤ d.status ∧ d.status ≤ 175
      · rw [if_pos h3]
      · rw [if_neg h3,
          if_neg (show ¬(224 ≤ d.status ∧ d.status ≤ 239) from hd)]

/-- A pitch-wheel event overwrites the bend with its decoded value. -/
theorem processEvent_bend_of_bend (s : Squarezoid) (d : MidiData)
    (hd : isBendEvent d) :
    (Squarezoid.processEvent s (VstEvent.midi d)).bend = d.d1 ||| (d.d2 <<< 7) := by
  obtain ⟨ha, hb⟩ := hd
  simp only [Squarezoid.processEvent]
  rw [if_neg (by omega), if_neg (by omega), if_neg (by omega), if_pos ⟨ha, hb⟩]

/-- A run of events containing no pitch-wheel event preserves the bend. -/
theorem foldl_bend_preserved : ∀ (l : List VstEvent) (s : Squarezoid),
    (∀ d ∈ l.filterMap midiOf, ¬ isBendEvent d) →
    (List.foldl Squarezoid.processEvent s l).bend = s.bend := by
  intro l
  induction l with
  | nil => intro s _; rfl
  | cons e l ih =>
    intro s h
    match e with
    | .other =>
      show (List.foldl Squarezoid.processEvent s l).bend = s.bend
      exact ih s (fun d hd => h d (by simpa [midiOf] using hd))
    | .midi d =>
      have hd : ¬ isBendEvent d := h d (by simp [midiOf])
      show (List.foldl Squarezoid.processEvent (Squarezoid.processEvent s (.midi d)) l).bend
        = s.bend
      rw [ih (Squarezoid.processEvent s (.midi d))
        (fun d' hd' => h d' (by simpa [midiOf] using Or.inr hd'))]
      exact processEvent_bend_of_not_bend s d hd

/-- C6: after a batch whose last pitch-wheel event is `e`, the global bend
is `e.d1 ||| (e.d2 <<< 7)` — the first data byte in the low bits, the
second shifted left by 7 — regardless of earlier bend events or the prior
bend value. -/
theorem bend_last_event_wins (s : Squarezoid) (l1 l2 : List VstEvent) (e : MidiData)
    (he : isBendEvent e) (hl2 : ∀ d ∈ l2.filterMap midiOf, ¬ isBendEvent d) :
    (Squarezoid.process_events s (l1 ++ VstEvent.midi e :: l2)).bend =
      e.d1 ||| (e.d2 <<< 7) := by
  unfold Squarezoid.process_events
  rw [List.foldl_append]
  show (List.foldl Squarezoid.processEvent
    (Squarezoid.processEvent (List.foldl Squarezoid.processEvent s l1)
      (VstEvent.midi e)) l2).bend = _
  rw [foldl_bend_preserved l2 _ hl2]
  exact processEvent_bend_of_bend _ e he

/-- Witness for C6: bend 224/1/2 then bend 224/5/6 then a note-on leaves
the bend at `5 ||| (6 <<< 7) = 773`. -/
theorem bend_last_event_wins_witness :
    (Squarezoid.process_events Squarezoid.default
      ([VstEvent.midi (MidiData.mk 224 1 2)] ++
        VstEvent.midi (MidiData.mk 224 5 6) ::
          [VstEvent.midi (MidiData.mk 144 70 10), VstEvent.other])).bend = 773 :=
  (bend_last_event_wins Squarezoid.default [VstEvent.midi (MidiData.mk 224 1 2)]
    [VstEvent.midi (MidiData.mk 144 70 10), VstEvent.other] (MidiData.mk 224 5 6)
    (by decide) (by decide)).trans (by decide)

/-- C7 counterexample: the second data byte of a pitch-wheel event is a
full `u8` in the source and is shifted left unmasked, so a (malformed but
representable) event with data bytes `(0, 255)` drives the bend to
`32640 > 16383`. -/
theorem bend_range_counterexample :
    (Squarezoid.process_events Squarezoid.default
      [VstEvent.midi (MidiData.mk 224 0 255)]).bend = 32640 ∧ 16383 < 32640 := by
  constructor
  · rfl
  · decide

/-- Bend stays a 14-bit value across any event run whose pitch-wheel
events carry 7-bit data bytes. -/
theorem bend_le_of_run : ∀ (evts : List VstEvent) (s : Squarezoid),
    s.bend ≤ 16383 →
    (∀ d ∈ evts.filterMap midiOf, isBendEvent d → d.d1 ≤ 127 ∧ d.d2 ≤ 127) →
    (Squarezoid.process_events s evts).bend ≤ 16383 := by
  intro evts
  induction evts with
  | nil => intro s hs _; exact hs
  | cons e l ih =>
    intro s hs h7
    have hstep : (Squarezoid.processEvent s e).bend ≤ 16383 := by
      match e with
      | .other => exact hs
      | .midi d =>
        by_cases hb : isBendEvent d
        · rw [processEvent_bend_of_bend s d hb]
          obtain ⟨h1, h2⟩ := h7 d (by simp [midiOf]) hb
          have hlt : d.d2 <<< 7 ||| d.d1 < 2 ^ (7 + 7) :=
            Nat.append_lt (by omega) (by omega)
          have hlt2 : d.d2 <<< 7 ||| d.d1 < 16384 := by simpa using hlt
          rw [Nat.lor_comm]
          omega
        · rw [processEvent_bend_of_not_bend s d hb]
          exact hs
    refine ih (Squarezoid.processEvent s e) hstep (fun d hd hb => h7 d ?_ hb)
    rw [List.mem_filterMap] at hd ⊢
    obtain ⟨a, ha, hfa⟩ := hd
    exact ⟨a, List.mem_cons_of_mem e ha, hfa⟩

/-- C7 (amended): the bend defaults to 8192 and stays within `[0, 16383]`
across every event batch whose pitch-wheel events carry valid 7-bit data
bytes; with arbitrary `u8` data bytes (accepted as-is, unvalidated) it can
exceed 16383, as the counterexample shows. -/
theorem bend_range_invariant (s : Squarezoid) (evts : List VstEvent)
    (hs : s.bend ≤ 16383)
    (h7 : ∀ d ∈ evts.filterMap midiOf, isBendEvent d → d.d1 ≤ 127 ∧ d.d2 ≤ 127) :
    Squarezoid.default.bend = 8192 ∧
    (Squarezoid.process_events s evts).bend ≤ 16383 :=
  ⟨rfl, bend_le_of_run evts s hs h7⟩

/-- Witness for C7 (amended) on a concrete valid batch. -/
theorem bend_range_invariant_witness :
    Squarezoid.default.bend = 8192 ∧
    (Squarezoid.process_events Squarezoid.default
      [VstEvent.midi (MidiData.mk 224 100 50), VstEvent.midi (MidiData.mk 144 69 127)]).bend
      ≤ 16383 :=
  bend_range_invariant Squarezoid.default
    [VstEvent.midi (MidiData.mk 224 100 50), VstEvent.midi (MidiData.mk 144 69 127)]
    (by decide) (by decide)

/- ## Events for absent pitches -/

/-- C8: a note-off or polyphonic aftertouch event for a pitch with no live
note leaves the entire engine state unchanged — no registry entry is
created and nothing else mutates. -/
theorem absent_pitch_ignored (s : Squarezoid) (st p v : ℕ)
    (habs : ∀ e ∈ s.notes, ¬ e.1 = p)
    (hst : (128 ≤ st ∧ st ≤ 143) ∨ (160 ≤ st ∧ st ≤ 175)) :
    Squarezoid.processEvent s (VstEvent.midi (MidiData.mk st p v)) = s := by
  simp only [Squarezoid.processEvent]
  rcases hst with ⟨h1, h2⟩ | ⟨h1, h2⟩
  · rw [if_pos ⟨h1, h2⟩]
    have hr : removeNote s.notes p = s.notes := by
      unfold removeNote
      rw [List.filter_eq_self]
      intro a ha
      simpa using habs a ha
    rw [hr]
  · rw [if_neg (by omega), if_neg (by omega), if_pos ⟨h1, h2⟩]
    have hr : aftertouchNote s.notes p v = s.notes := by
      unfold aftertouchNote
      have hmap : ∀ a ∈ s.notes,
          (if a.1 = p then (a.1, Note.mk v a.2.duration) else a) = a :=
        fun a ha => if_neg (habs a ha)
      exact (List.map_congr_left hmap).trans (List.map_id s.notes)
    rw [hr]

/-- Witness for C8: a note-off for absent pitch 69 is a no-op on a
registry holding only pitch 70. -/
theorem absent_pitch_ignored_witness :
    Squarezoid.processEvent (Squarezoid.mk [(70, Note.mk 5 0)] 8192 44100)
      (VstEvent.midi (MidiData.mk 128 69 0)) =
      Squarezoid.mk [(70, Note.mk 5 0)] 8192 44100 :=
  absent_pitch_ignored (Squarezoid.mk [(70, Note.mk 5 0)] 8192 44100) 128 69 0
    (by simp)
    (Or.inl ⟨by norm_num, by norm_num⟩)
